import Mathlib

/-!
Shallow embedding of the pypi-mirror maintenance scripts
(`scripts/generate_index.py` and `scripts/verify_mirror.py`) together with
theorems settling the specification claims about them.

Python strings (and byte streams) are modelled as lists of Unicode code
points (`List Nat`); the mirror's output directory is modelled as a map from
relative paths to file contents (`Text → Option Text`), mutated by explicit
`writeText` steps in the order the script performs them.
-/

/-- A Python `str` (or `bytes`): the sequence of its code points. -/
abbrev Text := List Nat

/-- Code points of a Lean string literal, used to embed Python literals. -/
def str (s : String) : Text := s.data.map Char.toNat

/-- One directory entry of `packages_dir.iterdir()`: its filename, whether it
is a regular file, and (for files) its byte content. -/
structure Entry where
  name : Text
  isFile : Bool
  content : Text
deriving DecidableEq

namespace GenerateIndex

/-! ### `scripts/generate_index.py` -/

/-- The character class `[-_.]` of the `re.sub` in `normalize`
(codes 45 `-`, 95 `_`, 46 `.`). -/
def isSepChar (c : Nat) : Bool := decide (c = 45 ∨ c = 95 ∨ c = 46)

/-- One character of `str.lower()` (ASCII letters; `A`..`Z` are 65..90). -/
def lowerChar (c : Nat) : Nat := if 65 ≤ c ∧ c ≤ 90 then c + 32 else c

/-- Python `re.sub(r"[-_.]+", "-", name)`: every maximal run of separator characters
becomes a single `-`.  The boolean records whether the scanner is inside a
run whose replacement `-` has already been emitted. -/
def collapseAux : Bool → Text → Text
  | _, [] => []
  | inRun, c :: cs =>
    if isSepChar c then
      if inRun then collapseAux true cs else 45 :: collapseAux true cs
    else c :: collapseAux false cs

/-- Function `normalize` from `scripts/generate_index.py`:
`re.sub(r"[-_.]+", "-", name).lower()`. -/
def normalize (name : Text) : Text := (collapseAux false name).map lowerChar

/-- Digits for `\d` (ASCII 48..57). -/
def isDigitChar (c : Nat) : Bool := decide (48 ≤ c ∧ c ≤ 57)

/-- Whether a text starts with a digit, i.e. whether `\d+` can match here. -/
def headIsDigit : Text → Bool
  | [] => false
  | d :: _ => isDigitChar d

/-- Scanner behind `re.match(r"^(.+?)-\d+", ...)`: the characters strictly
before the first `-` (code 45) that is immediately followed by a digit, or
`none` when no such occurrence exists. -/
def findStem : Text → Option Text
  | [] => none
  | c :: cs =>
    if c == 45 && headIsDigit cs then some []
    else (findStem cs).map (fun p => c :: p)

/-- The `group(1)` of `re.match(r"^(.+?)-\d+", filename)`: the lazy `.+?` forces
the captured group to be nonempty, so the search for `-` followed by a digit
starts only after the first character. -/
def sdistStem : Text → Option Text
  | [] => none
  | c :: cs => (findStem cs).map (fun p => c :: p)

/-- Function `extract_package_name` from `scripts/generate_index.py`. -/
def extract_package_name (filename : Text) : Option Text :=
  if (str ".whl").isSuffixOf filename then
    some (normalize (filename.takeWhile (fun c => c != 45)))
  else if (str ".tar.gz").isSuffixOf filename then
    (sdistStem filename).map normalize
  else if (str ".zip").isSuffixOf filename then
    (sdistStem filename).map normalize
  else none

/-- The `iter(lambda: f.read(8192), b"")` loop of `sha256_file`: the byte
stream split into successive 8192-byte chunks.  The fuel argument (bounded by
the length) only makes the recursion structural; every step consumes at least
one byte, so `length` fuel suffices. -/
def readChunksAux : Nat → Text → List Text
  | 0, _ => []
  | _, [] => []
  | fuel + 1, c :: cs => ((c :: cs).take 8192) :: readChunksAux fuel ((c :: cs).drop 8192)

/-- The chunks successively read (and fed to `h.update`) by `sha256_file`. -/
def readChunks (content : Text) : List Text := readChunksAux content.length content

/-- Function `sha256_file`, with `hashlib` modelled by its interface contract: each
`h.update(chunk)` appends the chunk to the byte stream fed so far, and
`h.hexdigest()` is the SHA-256 hex digest (the abstract `sha256hex`
parameter) of everything fed. -/
def sha256_file (sha256hex : Text → Text) (content : Text) : Text :=
  sha256hex ((readChunks content).foldl (fun fed chunk => fed ++ chunk) [])

/-- The grouping dictionary `package_files`: keys in first-insertion order,
each key holding its `(filename, sha)` pairs in append order. -/
abbrev Groups := List (Text × List (Text × Text))

/-- Python `package_files[pkg_name].append((f.name, sha))` on a `defaultdict(list)`. -/
def addEntry (groups : Groups) (key : Text) (v : Text × Text) : Groups :=
  match groups with
  | [] => [(key, [v])]
  | (k, vs) :: rest =>
    if k = key then (k, vs ++ [v]) :: rest else (k, vs) :: addEntry rest key v

/-- One iteration of the scanning loop of `generate_index`: skip non-files,
classify, and (Python truthiness: `if pkg_name:`) skip a `None` or empty
package name; otherwise hash the file and record it. -/
def scanStep (sha256hex : Text → Text) (groups : Groups) (e : Entry) : Groups :=
  if !e.isFile then groups
  else
    match extract_package_name e.name with
    | none => groups
    | some pkg =>
      if pkg = [] then groups
      else addEntry groups pkg (e.name, sha256_file sha256hex e.content)

/-- Python string `<=`: lexicographic comparison of code points. -/
def textLe : Text → Text → Bool
  | [], _ => true
  | _ :: _, [] => false
  | a :: as, b :: bs => decide (a < b) || (a == b && textLe as bs)

/-- Python string order as a relation, for `sorted(...)`. -/
def leT (a b : Text) : Prop := textLe a b = true

instance : DecidableRel leT := fun a b => instDecidableEqBool (textLe a b) true

/-- Python `sorted(packages_dir.iterdir())`: directory entries in filename order. -/
def sortEntries (entries : List Entry) : List Entry :=
  List.insertionSort (fun e₁ e₂ => leT e₁.name e₂.name) entries

/-- The dictionary built by the scanning loop over the sorted listing. -/
def groupsOf (sha256hex : Text → Text) (entries : List Entry) : Groups :=
  (sortEntries entries).foldl (scanStep sha256hex) []

/-- Python `sorted(package_files.keys())` (keys are distinct, so tuple comparison of
`sorted(package_files.items())` also never goes past the key). -/
def sortKeys (keys : List Text) : List Text := List.insertionSort leT keys

/-- Python `sorted(package_files.items())`, ordered by key. -/
def sortGroups (groups : Groups) : Groups :=
  List.insertionSort (fun g₁ g₂ => leT g₁.1 g₂.1) groups

/-- Python `"\n".join(lines)`. -/
def joinNl : List Text → Text
  | [] => []
  | [l] => l
  | l :: l' :: ls => l ++ 10 :: joinNl (l' :: ls)

/-- One root-page link line: `    <a href="{pkg_name}/">{pkg_name}</a>`. -/
def rootLink (pkg : Text) : Text :=
  str "    <a href=\"" ++ pkg ++ str "/\">" ++ pkg ++ str "</a>"

/-- The content of `simple/index.html` for the given (already sorted) keys. -/
def rootHtml (keys : List Text) : Text :=
  str "<!DOCTYPE html>\n<html><head><title>Simple Index</title><meta name=\"api-version\" value=\"2\"/></head>\n<body>\n"
    ++ joinNl (keys.map rootLink) ++ str "\n</body></html>"

/-- One package-page link line:
`    <a href="../../packages/{filename}#sha256={sha}">{filename}</a>`. -/
def fileLink (filename sha : Text) : Text :=
  str "    <a href=\"../../packages/" ++ filename ++ str "#sha256=" ++ sha
    ++ str "\">" ++ filename ++ str "</a>"

/-- The content of `simple/<pkg>/index.html` for one package. -/
def pkgHtml (pkg : Text) (files : List (Text × Text)) : Text :=
  str "<!DOCTYPE html>\n<html><head><title>" ++ pkg
    ++ str "</title><meta name=\"api-version\" value=\"2\"/></head>\n<body>\n"
    ++ joinNl (files.map (fun fs => fileLink fs.1 fs.2)) ++ str "\n</body></html>"

/-- The output tree, as a map from paths (relative to `index_dir`) to file
contents.  Directory creation (`mkdir(parents=True, exist_ok=True)`) touches
no file content and is not represented. -/
def Fs : Type := Text → Option Text

/-- Python `path.write_text(content)`: create or fully overwrite one file. -/
def writeText (fs : Fs) (path content : Text) : Fs :=
  fun p => if p = path then some content else fs p

/-- Path of the root index page, relative to `index_dir`. -/
def rootPath : Text := str "simple/index.html"

/-- Path of one package's index page, relative to `index_dir`. -/
def pkgPath (pkg : Text) : Text := str "simple/" ++ pkg ++ str "/index.html"

/-- The sequence of `write_text` calls performed by `generate_index`:
the root listing first, then one page per package in sorted key order. -/
def writesOf (sha256hex : Text → Text) (entries : List Entry) : List (Text × Text) :=
  let groups := groupsOf sha256hex entries
  (rootPath, rootHtml (sortKeys (groups.map Prod.fst)))
    :: (sortGroups groups).map (fun g => (pkgPath g.1, pkgHtml g.1 g.2))

/-- Function `generate_index` from `scripts/generate_index.py`: scan and group the
artifact directory, then write the root page and every package page. -/
def generate_index (sha256hex : Text → Text) (entries : List Entry) (fs : Fs) : Fs :=
  let groups := groupsOf sha256hex entries
  let fs₁ := writeText fs rootPath (rootHtml (sortKeys (groups.map Prod.fst)))
  (sortGroups groups).foldl (fun f g => writeText f (pkgPath g.1) (pkgHtml g.1 g.2)) fs₁

/-- The `generate_index(...)` call of the script's `__main__` block:
`packages_dir.iterdir()` is forced (by `sorted`) before anything is written,
so a missing artifact directory (`dirListing = none`) raises
`FileNotFoundError` with the output tree untouched. -/
def runGenerateIndex (sha256hex : Text → Text) (dirListing : Option (List Entry))
    (fs : Fs) : Except Text Unit × Fs :=
  match dirListing with
  | none => (Except.error (str "FileNotFoundError"), fs)
  | some entries => (Except.ok (), generate_index sha256hex entries fs)

/-- Two texts differ only in letter case or in the choice of the separator
characters `-`, `_`, `.`: they have the same length and, position by
position, either the characters agree up to case or both are separators. -/
def caseSepEquiv : Text → Text → Bool
  | [], [] => true
  | a :: as, b :: bs =>
    (lowerChar a == lowerChar b || (isSepChar a && isSepChar b)) && caseSepEquiv as bs
  | _, _ => false

/-- Specification-shaped collapse: a separator character opens a maximal run,
which is replaced as a whole by a single `-` (45). -/
def runsCollapse : Text → Text
  | [] => []
  | c :: cs =>
    if isSepChar c then 45 :: runsCollapse (cs.dropWhile isSepChar)
    else c :: runsCollapse cs
termination_by l => l.length
decreasing_by
  · simp only [List.length_cons]
    exact Nat.lt_succ_of_le (List.dropWhile_sublist isSepChar).length_le
  · simp only [List.length_cons]
    exact Nat.lt_succ_self _

/-- Position `i` of `fn` holds a `-` immediately followed by a digit. -/
def dashDigitAt (fn : Text) (i : Nat) : Bool :=
  fn[i]? == some 45 && ((fn[i + 1]?).map isDigitChar).getD false

/-- The sdist rule exactly as the specification sentence reads: the leading
substring up to — but not including — the first occurrence of `-` immediately
followed by a digit, `none` when no such occurrence exists (no constraint on
the occurrence's position). -/
def claimStem (fn : Text) : Option Text :=
  (((List.range fn.length).filter (fun i => dashDigitAt fn i)).head?).map fun i => fn.take i

/-- The sdist rule as the code implements it: the same first occurrence, but
restricted to positive positions, because the lazy group `(.+?)` must be
nonempty. -/
def specStem (fn : Text) : Option Text :=
  (((List.range fn.length).filter
      (fun i => decide (0 < i) && dashDigitAt fn i)).head?).map fun i => fn.take i

/-- Apply a list of `write_text` calls in order. -/
def applyWrites (ws : List (Text × Text)) (fs : Fs) : Fs :=
  ws.foldl (fun f w => writeText f w.1 w.2) fs

/-- Association lookup in the grouping dictionary (`package_files[key]`,
defaulting to the empty list as `defaultdict(list)` does). -/
def lookupG : Groups → Text → List (Text × Text)
  | [], _ => []
  | (k, vs) :: rest, key => if k = key then vs else lookupG rest key

/-- The `(filename, sha)` pairs recorded for one package by the scan. -/
def filesOf (sha256hex : Text → Text) (entries : List Entry) (pkg : Text) :
    List (Text × Text) :=
  lookupG (groupsOf sha256hex entries) pkg

/-- The keys listed on the root page: `sorted(package_files.keys())`. -/
def rootKeys (sha256hex : Text → Text) (entries : List Entry) : List Text :=
  sortKeys ((groupsOf sha256hex entries).map Prod.fst)

end GenerateIndex

/-- The distinct normalized names among the classified artifacts of a
directory listing (spec-side notion for C7: classification succeeded,
including with the degenerate empty name). -/
def classifiedNames (entries : List Entry) : List Text :=
  ((entries.filter (fun e => e.isFile)).filterMap
    (fun e => GenerateIndex.extract_package_name e.name)).dedup

namespace VerifyMirror

/-! ### `scripts/verify_mirror.py` -/

/-- The character class `[-_.]` of the `re.sub` in this script's own copy of
`normalize` (codes 45 `-`, 95 `_`, 46 `.`). -/
def isSepChar (c : Nat) : Bool := decide (c = 45 ∨ c = 95 ∨ c = 46)

/-- One character of `str.lower()` (ASCII letters; `A`..`Z` are 65..90). -/
def lowerChar (c : Nat) : Nat := if 65 ≤ c ∧ c ≤ 90 then c + 32 else c

/-- Python `re.sub(r"[-_.]+", "-", name)`, as in `GenerateIndex.collapseAux`. -/
def collapseAux : Bool → Text → Text
  | _, [] => []
  | inRun, c :: cs =>
    if isSepChar c then
      if inRun then collapseAux true cs else 45 :: collapseAux true cs
    else c :: collapseAux false cs

/-- Function `normalize` from `scripts/verify_mirror.py`:
`re.sub(r"[-_.]+", "-", name).lower()`. -/
def normalize (name : Text) : Text := (collapseAux false name).map lowerChar

/-- Python `str.strip()` whitespace (ASCII part): space 32, tab 9, newline 10,
vertical tab 11, form feed 12, carriage return 13. -/
def isSpaceChar (c : Nat) : Bool :=
  decide (c = 32 ∨ c = 9 ∨ c = 10 ∨ c = 11 ∨ c = 12 ∨ c = 13)

/-- Python `str.strip()`: remove leading and trailing whitespace. -/
def strip (l : Text) : Text :=
  ((l.dropWhile isSpaceChar).reverse.dropWhile isSpaceChar).reverse

/-- Python `str.split("\n")`: split on every newline (code 10), keeping empty
segments; the result is always nonempty, `"".split("\n") == [""]`. -/
def splitLines : Text → List Text
  | [] => [[]]
  | c :: cs =>
    if c == 10 then [] :: splitLines cs
    else
      match splitLines cs with
      | line :: rest => (c :: line) :: rest
      | [] => [[c]]

/-- The character class `[a-zA-Z0-9_.\-\[\]]` of the requirement-name regex
(codes: lowercase 97..122, uppercase 65..90, digits 48..57, `_` 95, `.` 46,
`-` 45, `[` 91, `]` 93). -/
def isReqChar (c : Nat) : Bool :=
  decide ((97 ≤ c ∧ c ≤ 122) ∨ (65 ≤ c ∧ c ≤ 90) ∨ (48 ≤ c ∧ c ≤ 57)
    ∨ c = 95 ∨ c = 46 ∨ c = 45 ∨ c = 91 ∨ c = 93)

/-- One loop iteration of `verify` up to name extraction: the normalized
package name when the (stripped) line is actually checked, `none` when the
line is skipped — blank, comment (`#` = 35), option (`-` = 45), or the
greedy match of `^([a-zA-Z0-9_.\-\[\]]+)` fails; `.split("[")[0]` cuts the
extras suffix at the first `[` (91). -/
def lineName (line : Text) : Option Text :=
  let req := strip line
  match req with
  | [] => none
  | c :: _ =>
    if c == 35 then none
    else if c == 45 then none
    else
      let m := req.takeWhile isReqChar
      if m = [] then none
      else some (normalize (m.takeWhile (fun c => c != 91)))

/-- Python `pkg_name.replace("-", "_")` (45 ↦ 95). -/
def underscoreVariant (pkg : Text) : Text := pkg.map (fun c => if c == 45 then 95 else c)

/-- Python `pkg_name.replace("-", ".")` (45 ↦ 46). -/
def dotVariant (pkg : Text) : Text := pkg.map (fun c => if c == 45 then 46 else c)

/-- The set comprehension `{f.name.lower() for f in ... if f.is_file()}`,
as a list (the only use is an existential `any`, indifferent to order and
duplicates). -/
def availableOf (entries : List Entry) : List Text :=
  (entries.filter (fun e => e.isFile)).map (fun e => e.name.map lowerChar)

/-- The `found = any(...)` test of `verify`: some available (lowercased)
filename starts with the normalized name, its underscore variant, or its dot
variant, each followed by `-` (45). -/
def satisfies (available : List Text) (pkg : Text) : Bool :=
  available.any (fun f =>
    (pkg ++ [45]).isPrefixOf f || (underscoreVariant pkg ++ [45]).isPrefixOf f
      || (dotVariant pkg ++ [45]).isPrefixOf f)

/-- The outcome of `verify`: how many requirement lines were checked and
which (stripped) requirement lines are missing, in input order. -/
structure VerifyResult where
  checked : Nat
  missing : List Text
deriving DecidableEq

/-- One iteration of the requirements loop of `verify`: skipped lines leave
the state alone; a checked line bumps `checked` and, when unsatisfied,
appends the stripped line to `missing`. -/
def verifyStep (available : List Text) (acc : Nat × List Text) (line : Text) : Nat × List Text :=
  match lineName line with
  | none => acc
  | some pkg =>
    (acc.1 + 1, if satisfies available pkg then acc.2 else acc.2 ++ [strip line])

/-- Function `verify` from `scripts/verify_mirror.py`, given the text of the
requirements file and the artifact directory listing. -/
def verify (reqText : Text) (entries : List Entry) : VerifyResult :=
  let available := availableOf entries
  let reqs := splitLines (strip reqText)
  let r := reqs.foldl (verifyStep available) (0, [])
  ⟨r.1, r.2⟩

/-- Python `sys.exit(1)` is taken iff `missing` is nonempty; a normal return is the
success exit status. -/
def exitSuccess (r : VerifyResult) : Bool := r.missing.isEmpty

/-- The `verify(...)` call of the script's `__main__` block:
`read_text()` on the requirements file and `iterdir()` on the artifact
directory both run before the loop, so a missing input raises
`FileNotFoundError` before any requirement is processed. -/
def runVerify (reqText : Option Text) (dirListing : Option (List Entry)) :
    Except Text VerifyResult :=
  match reqText with
  | none => Except.error (str "FileNotFoundError")
  | some t =>
    match dirListing with
    | none => Except.error (str "FileNotFoundError")
    | some entries => Except.ok (verify t entries)

end VerifyMirror

section Sanity

example : str "A-b" = [65, 45, 98] := by decide
example : GenerateIndex.normalize (str "Foo_Bar.Baz") = str "foo-bar-baz" := by decide
example : GenerateIndex.extract_package_name (str "my-package-1.2.3.tar.gz")
    = some (str "my-package") := by decide
example : GenerateIndex.extract_package_name (str "foo.whl") = some (str "foo-whl") := by decide
example : GenerateIndex.extract_package_name (str "-1.tar.gz") = none := by decide
example : GenerateIndex.extract_package_name (str "requests-2.31.0-py3-none-any.whl")
    = some (str "requests") := by decide
example : GenerateIndex.readChunks [1, 2, 3] = [[1, 2, 3]] := by decide
example : (VerifyMirror.verify (str "PKG-Name==1.0.0")
    [⟨str "pkg_name-1.0.0-py3-none-any.whl", true, []⟩]).missing = [] := by decide
example : (VerifyMirror.verify (str "foo==1.0")
    [⟨str "foobar-1.0.tar.gz", true, []⟩]).missing = [str "foo==1.0"] := by decide
example : (VerifyMirror.verify (str "numpy==1.0")
    [⟨str "scipy-1.0-py3-none-any.whl", true, []⟩]).missing = [str "numpy==1.0"] := by decide
example : VerifyMirror.verify (str "# comment\n\nfoo==1.0\n--index-url x\nbar[extra]==2")
    [⟨str "foo-1.0.tar.gz", true, []⟩] = ⟨2, [str "bar[extra]==2"]⟩ := by decide

end Sanity

namespace GenerateIndex

/-! ### Properties of `normalize` -/

theorem isSepChar_45 : isSepChar 45 = true := by decide

theorem lowerChar_45 : lowerChar 45 = 45 := by decide

theorem isSepChar_lowerChar (c : Nat) : isSepChar (lowerChar c) = isSepChar c := by
  unfold isSepChar lowerChar
  split
  · next h => rw [decide_eq_decide]; omega
  · rfl

theorem lowerChar_idem (c : Nat) : lowerChar (lowerChar c) = lowerChar c := by
  unfold lowerChar
  by_cases h : 65 ≤ c ∧ c ≤ 90
  · rw [if_pos h, if_neg (by omega)]
  · rw [if_neg h, if_neg h]

theorem map_lowerChar_idem (l : Text) :
    (l.map lowerChar).map lowerChar = l.map lowerChar := by
  rw [List.map_map]
  exact List.map_congr_left fun a _ => lowerChar_idem a

theorem collapseAux_map_lower (l : Text) :
    ∀ b, collapseAux b (l.map lowerChar) = (collapseAux b l).map lowerChar := by
  induction l with
  | nil => intro b; rfl
  | cons c cs ih =>
    intro b
    simp only [List.map_cons, collapseAux, isSepChar_lowerChar]
    by_cases h : isSepChar c = true <;> cases b <;>
      simp [h, ih, lowerChar_45]

theorem collapseAux_idem (l : Text) :
    ∀ b, collapseAux b (collapseAux b l) = collapseAux b l := by
  induction l with
  | nil => intro b; rfl
  | cons c cs ih =>
    intro b
    by_cases h : isSepChar c = true <;> cases b <;>
      simp [collapseAux, h, isSepChar_45, ih]

theorem normalize_idem (s : Text) : normalize (normalize s) = normalize s := by
  unfold normalize
  rw [collapseAux_map_lower, collapseAux_idem]
  exact map_lowerChar_idem _

theorem sep_eq_of_rel {a b : Nat}
    (h : lowerChar a = lowerChar b ∨ (isSepChar a = true ∧ isSepChar b = true)) :
    isSepChar a = isSepChar b := by
  rcases h with h | ⟨h₁, h₂⟩
  · rw [← isSepChar_lowerChar a, ← isSepChar_lowerChar b, h]
  · rw [h₁, h₂]

theorem collapseLower_equiv : ∀ s t : Text, caseSepEquiv s t = true →
    ∀ b, (collapseAux b s).map lowerChar = (collapseAux b t).map lowerChar := by
  intro s
  induction s with
  | nil =>
    intro t h b
    cases t with
    | nil => rfl
    | cons x xs => exact absurd h (by simp [caseSepEquiv])
  | cons a as ih =>
    intro t h b
    cases t with
    | nil => exact absurd h (by simp [caseSepEquiv])
    | cons c cs =>
      simp only [caseSepEquiv, Bool.and_eq_true, Bool.or_eq_true, beq_iff_eq] at h
      obtain ⟨hrel, htail⟩ := h
      have hsep : isSepChar a = isSepChar c := sep_eq_of_rel hrel
      by_cases ha : isSepChar a = true
      · have hc : isSepChar c = true := hsep ▸ ha
        cases b <;> simp [collapseAux, ha, hc, lowerChar_45, ih cs htail]
      · have hc : ¬isSepChar c = true := fun h' => ha (hsep ▸ h')
        have hlow : lowerChar a = lowerChar c := by
          rcases hrel with h' | ⟨h₁, _⟩
          · exact h'
          · exact absurd h₁ ha
        simp [collapseAux, ha, hc, hlow, ih cs htail]

theorem collapseAux_true_eq (cs : Text) :
    collapseAux true cs = collapseAux false (cs.dropWhile isSepChar) := by
  induction cs with
  | nil => rfl
  | cons c cs ih =>
    by_cases h : isSepChar c = true
    · simp only [collapseAux, h, if_true, List.dropWhile_cons, ih]
    · simp only [collapseAux, h, if_false, List.dropWhile_cons]
      simp [collapseAux, h]

theorem collapseAux_eq_runsCollapse_aux :
    ∀ n (l : Text), l.length ≤ n → collapseAux false l = runsCollapse l := by
  intro n
  induction n with
  | zero =>
    intro l hl
    have : l = [] := List.length_eq_zero.mp (Nat.le_zero.mp hl)
    subst this
    simp [collapseAux, runsCollapse]
  | succ n ih =>
    intro l hl
    cases l with
    | nil => simp [collapseAux, runsCollapse]
    | cons c cs =>
      by_cases h : isSepChar c = true
      · have hd : (cs.dropWhile isSepChar).length ≤ n := by
          have := (List.dropWhile_sublist (l := cs) isSepChar).length_le
          simp only [List.length_cons] at hl
          omega
        simp only [collapseAux, h, if_true, Bool.false_eq_true, if_false]
        rw [collapseAux_true_eq, ih _ hd]
        rw [runsCollapse]
        simp [h]
      · have hd : cs.length ≤ n := by
          simp only [List.length_cons] at hl
          omega
        simp only [collapseAux, h, if_false]
        rw [ih _ hd]
        rw [runsCollapse]
        simp [h]

theorem collapseAux_eq_runsCollapse (l : Text) : collapseAux false l = runsCollapse l :=
  collapseAux_eq_runsCollapse_aux l.length l le_rfl

theorem collapseAux_eq (b : Bool) (l : Text) :
    VerifyMirror.collapseAux b l = GenerateIndex.collapseAux b l := by
  induction l generalizing b with
  | nil => rfl
  | cons c cs ih =>
    have hsep : VerifyMirror.isSepChar c = GenerateIndex.isSepChar c := rfl
    simp only [VerifyMirror.collapseAux, GenerateIndex.collapseAux, hsep, ih]

theorem normalize_eq (s : Text) : GenerateIndex.normalize s = VerifyMirror.normalize s := by
  unfold GenerateIndex.normalize VerifyMirror.normalize
  rw [collapseAux_eq]
  rfl

end GenerateIndex

/-- C1: `normalize` replaces every maximal run of `-`, `_`, `.` with one `-`
and lowercases (conjunct 4: it agrees with the run-at-a-time specification
`runsCollapse` followed by lowercasing); it is idempotent (conjunct 1); two
names differing only in case or separator choice normalize equally
(conjunct 2); and the index builder and the verifier use the identical
function (conjunct 3). -/
theorem claim_C1_normalize :
    (∀ s : Text, GenerateIndex.normalize (GenerateIndex.normalize s) = GenerateIndex.normalize s)
    ∧ (∀ s t : Text, GenerateIndex.caseSepEquiv s t = true →
        GenerateIndex.normalize s = GenerateIndex.normalize t)
    ∧ (∀ s : Text, GenerateIndex.normalize s = VerifyMirror.normalize s)
    ∧ (∀ s : Text, GenerateIndex.normalize s
        = (GenerateIndex.runsCollapse s).map GenerateIndex.lowerChar) :=
  ⟨GenerateIndex.normalize_idem,
   fun s t h => GenerateIndex.collapseLower_equiv s t h false,
   GenerateIndex.normalize_eq,
   fun s => by
    unfold GenerateIndex.normalize
    rw [GenerateIndex.collapseAux_eq_runsCollapse]⟩

/-- Witness for C1: `"Foo_Bar.Baz"` and `"foo-bar-baz"` differ only in case
and separator choice, and indeed normalize to the same name. -/
theorem claim_C1_normalize_witness :
    GenerateIndex.caseSepEquiv (str "Foo_Bar.Baz") (str "foo-bar-baz") = true
    ∧ GenerateIndex.normalize (str "Foo_Bar.Baz") = GenerateIndex.normalize (str "foo-bar-baz") :=
  ⟨by decide, claim_C1_normalize.2.1 _ _ (by decide)⟩

namespace GenerateIndex

/-! ### Characterizing `extract_package_name` -/

theorem headIsDigit_eq (cs : Text) :
    headIsDigit cs = ((cs[0]?).map isDigitChar).getD false := by
  cases cs <;> simp [headIsDigit]

theorem dashDigitAt_cons (c : Nat) (cs : Text) (i : Nat) :
    dashDigitAt (c :: cs) (i + 1) = dashDigitAt cs i := by
  simp [dashDigitAt, List.getElem?_cons_succ]

theorem findStem_eq (l : Text) :
    findStem l
      = (((List.range l.length).filter (fun i => dashDigitAt l i)).head?).map
          fun i => l.take i := by
  induction l with
  | nil => rfl
  | cons c cs ih =>
    rw [findStem, List.length_cons, List.range_succ_eq_map, List.filter_cons]
    have h0 : dashDigitAt (c :: cs) 0 = (c == 45 && headIsDigit cs) := by
      simp [dashDigitAt, headIsDigit_eq]
    by_cases h : (c == 45 && headIsDigit cs) = true
    · rw [if_pos h, h0, if_pos h]
      rfl
    · rw [if_neg h, h0, if_neg h]
      rw [List.filter_map (p := fun i => dashDigitAt (c :: cs) i) Nat.succ (List.range cs.length)]
      have hcomp : ((fun i => dashDigitAt (c :: cs) i) ∘ Nat.succ) = fun i => dashDigitAt cs i := by
        funext i
        simp [Function.comp, dashDigitAt_cons]
      rw [hcomp, ih, List.head?_map, Option.map_map, Option.map_map]
      cases ((List.range cs.length).filter (fun i => dashDigitAt cs i)).head? with
      | none => rfl
      | some i => simp [List.take_succ_cons]

theorem sdistStem_eq_specStem (fn : Text) : sdistStem fn = specStem fn := by
  cases fn with
  | nil => rfl
  | cons c cs =>
    rw [sdistStem, findStem_eq, specStem]
    rw [List.length_cons, List.range_succ_eq_map, List.filter_cons]
    rw [show (decide (0 < 0) && dashDigitAt (c :: cs) 0) = false by simp]
    rw [if_neg (by simp)]
    rw [List.filter_map (p := fun i => decide (0 < i) && dashDigitAt (c :: cs) i)
        Nat.succ (List.range cs.length)]
    have hcomp : ((fun i => decide (0 < i) && dashDigitAt (c :: cs) i) ∘ Nat.succ)
        = fun i => dashDigitAt cs i := by
      funext i
      simp [Function.comp, dashDigitAt_cons, Nat.succ_eq_add_one]
    rw [hcomp, List.head?_map, Option.map_map, Option.map_map]
    cases ((List.range cs.length).filter (fun i => dashDigitAt cs i)).head? with
    | none => rfl
    | some i => simp [List.take_succ_cons]

end GenerateIndex

/-- C3 counterexample: on `"-1.tar.gz"` the first `-`-followed-by-digit
occurrence is at position 0, so the claim's reading of the sdist rule yields
the (empty) normalized leading substring, yet the code classifies the file as
`none` — the lazy regex group must be nonempty. -/
theorem claim_C3_counterexample :
    GenerateIndex.extract_package_name (str "-1.tar.gz") = none
    ∧ (GenerateIndex.claimStem (str "-1.tar.gz")).map GenerateIndex.normalize = some []
    ∧ (GenerateIndex.claimStem (str "-1.tar.gz")).map GenerateIndex.normalize
        ≠ GenerateIndex.extract_package_name (str "-1.tar.gz") := by
  refine ⟨by decide, by decide, by decide⟩

/-- C3 (amended): classification case analysis — a `.whl` filename classifies
as the normalized first `-`-delimited segment; a `.tar.gz` or `.zip` filename
classifies as the normalized leading substring up to the first occurrence *at
a positive position* of `-` immediately followed by a digit (the leading
substring must be nonempty), and as `none` when no such occurrence exists;
any other suffix yields `none`; and `my-package-1.2.3.tar.gz` splits before
the version despite its embedded hyphen. -/
theorem claim_C3_classification :
    (∀ fn : Text, (str ".whl").isSuffixOf fn = true →
      GenerateIndex.extract_package_name fn
        = some (GenerateIndex.normalize (fn.takeWhile (fun c => c != 45))))
    ∧ (∀ fn : Text, (str ".whl").isSuffixOf fn = false →
        ((str ".tar.gz").isSuffixOf fn = true ∨ (str ".zip").isSuffixOf fn = true) →
      GenerateIndex.extract_package_name fn
        = (GenerateIndex.specStem fn).map GenerateIndex.normalize)
    ∧ (∀ fn : Text, (str ".whl").isSuffixOf fn = false →
        (str ".tar.gz").isSuffixOf fn = false → (str ".zip").isSuffixOf fn = false →
      GenerateIndex.extract_package_name fn = none)
    ∧ GenerateIndex.extract_package_name (str "my-package-1.2.3.tar.gz")
        = some (str "my-package") := by
  refine ⟨fun fn h => ?_, fun fn h₁ h₂ => ?_, fun fn h₁ h₂ h₃ => ?_, by decide⟩
  · rw [GenerateIndex.extract_package_name, if_pos h]
  · rw [GenerateIndex.extract_package_name, if_neg (by simp [h₁]),
      ← GenerateIndex.sdistStem_eq_specStem]
    rcases h₂ with h₂ | h₂
    · rw [if_pos h₂]
    · by_cases htar : (str ".tar.gz").isSuffixOf fn = true
      · rw [if_pos htar]
      · rw [if_neg (by simp [htar]), if_pos h₂]
  · rw [GenerateIndex.extract_package_name, if_neg (by simp [h₁]),
      if_neg (by simp [h₂]), if_neg (by simp [h₃])]

/-- Witness for C3: the sdist case applied to `"a-1.zip"`. -/
theorem claim_C3_classification_witness :
    GenerateIndex.extract_package_name (str "a-1.zip")
      = (GenerateIndex.specStem (str "a-1.zip")).map GenerateIndex.normalize :=
  claim_C3_classification.2.1 (str "a-1.zip") (by decide) (Or.inr (by decide))

theorem takeWhile_eq_self_of_no_dash (fn : Text) (h : 45 ∉ fn) :
    fn.takeWhile (fun c => c != 45) = fn := by
  induction fn with
  | nil => rfl
  | cons c cs ih =>
    simp only [List.mem_cons, not_or] at h
    have hc : (c != 45) = true := by
      simp only [bne_iff_ne, ne_eq]
      exact fun hc => h.1 hc.symm
    rw [List.takeWhile_cons, if_pos hc, ih h.2]

/-- C9: classification of a `.whl` filename never returns `none`; every wheel
filename containing no `-` classifies as the normalization of the whole
filename, `.whl` suffix included (so `foo.whl` ↦ `foo-whl`); a wheel filename
starting with `-` classifies as the empty name; and the scanning loop of the
index builder silently drops an artifact whose classified name is empty. -/
theorem claim_C9_wheel_edge :
    (∀ fn : Text, (str ".whl").isSuffixOf fn = true →
      (GenerateIndex.extract_package_name fn).isSome = true)
    ∧ (∀ fn : Text, (str ".whl").isSuffixOf fn = true → 45 ∉ fn →
        GenerateIndex.extract_package_name fn = some (GenerateIndex.normalize fn))
    ∧ GenerateIndex.extract_package_name (str "foo.whl") = some (str "foo-whl")
    ∧ (∀ rest : Text, (str ".whl").isSuffixOf (45 :: rest) = true →
        GenerateIndex.extract_package_name (45 :: rest) = some [])
    ∧ (∀ (sha256hex : Text → Text) (groups : GenerateIndex.Groups) (e : Entry),
        e.isFile = true → GenerateIndex.extract_package_name e.name = some [] →
        GenerateIndex.scanStep sha256hex groups e = groups) := by
  refine ⟨fun fn h => ?_, fun fn h hno => ?_, by decide, fun rest h => ?_,
    fun sha256hex groups e hf hn => ?_⟩
  · rw [GenerateIndex.extract_package_name, if_pos h]
    rfl
  · rw [GenerateIndex.extract_package_name, if_pos h,
      takeWhile_eq_self_of_no_dash fn hno]
  · rw [GenerateIndex.extract_package_name, if_pos h]
    simp [List.takeWhile_cons, GenerateIndex.normalize, GenerateIndex.collapseAux]
  · simp [GenerateIndex.scanStep, hf, hn]

/-- Witness for C9: the hyphen-free wheel filename `bar.whl` classifies as
the normalization of the whole filename, and the wheel filename `-0.whl`
classifies as the empty name and is dropped by the scanning loop. -/
theorem claim_C9_wheel_edge_witness :
    GenerateIndex.extract_package_name (str "bar.whl")
        = some (GenerateIndex.normalize (str "bar.whl"))
    ∧ GenerateIndex.extract_package_name (str "-0.whl") = some []
    ∧ GenerateIndex.scanStep (fun _ => []) [] ⟨str "-0.whl", true, []⟩ = [] := by
  refine ⟨claim_C9_wheel_edge.2.1 (str "bar.whl") (by decide) (by decide), ?_, ?_⟩
  · rw [show str "-0.whl" = 45 :: str "0.whl" from by decide]
    exact claim_C9_wheel_edge.2.2.2.1 _ (by decide)
  · exact claim_C9_wheel_edge.2.2.2.2 _ [] _ rfl (by decide)

namespace GenerateIndex

/-! ### The output tree as a sequence of writes -/

theorem generate_index_eq_applyWrites (sha256hex : Text → Text) (entries : List Entry)
    (fs : Fs) :
    generate_index sha256hex entries fs = applyWrites (writesOf sha256hex entries) fs := by
  unfold generate_index writesOf applyWrites
  simp only [List.foldl_cons, List.foldl_map]

theorem applyWrites_frame : ∀ (ws : List (Text × Text)) (fs : Fs) (p : Text),
    p ∉ ws.map Prod.fst → applyWrites ws fs p = fs p := by
  intro ws
  induction ws with
  | nil => intro fs p _; rfl
  | cons w ws ih =>
    intro fs p hp
    simp only [List.map_cons, List.mem_cons, not_or] at hp
    have step : applyWrites (w :: ws) fs = applyWrites ws (writeText fs w.1 w.2) := rfl
    rw [step, ih _ p hp.2, writeText, if_neg hp.1]

theorem applyWrites_indep : ∀ (ws : List (Text × Text)) (fs fs' : Fs) (p : Text),
    p ∈ ws.map Prod.fst → applyWrites ws fs p = applyWrites ws fs' p := by
  intro ws
  induction ws with
  | nil => intro fs fs' p hp; simp at hp
  | cons w ws ih =>
    intro fs fs' p hp
    have step : ∀ g : Fs, applyWrites (w :: ws) g = applyWrites ws (writeText g w.1 w.2) :=
      fun g => rfl
    by_cases hmem : p ∈ ws.map Prod.fst
    · rw [step fs, step fs']
      exact ih _ _ _ hmem
    · have hpw : p = w.1 := by
        simp only [List.map_cons, List.mem_cons] at hp
        tauto
      rw [step fs, step fs', applyWrites_frame ws _ p hmem, applyWrites_frame ws _ p hmem]
      simp [writeText, hpw]

theorem applyWrites_idem (ws : List (Text × Text)) (fs : Fs) :
    applyWrites ws (applyWrites ws fs) = applyWrites ws fs := by
  funext p
  by_cases h : p ∈ ws.map Prod.fst
  · exact applyWrites_indep ws _ fs p h
  · exact applyWrites_frame ws _ p h

end GenerateIndex

/-- C5: rebuilding the index over an unchanged artifact directory is
idempotent — the second run writes exactly the bytes the first one did, so
the resulting output tree is identical. -/
theorem claim_C5_idempotent (sha256hex : Text → Text) (entries : List Entry)
    (fs : GenerateIndex.Fs) :
    GenerateIndex.generate_index sha256hex entries
        (GenerateIndex.generate_index sha256hex entries fs)
      = GenerateIndex.generate_index sha256hex entries fs := by
  simp only [GenerateIndex.generate_index_eq_applyWrites, GenerateIndex.applyWrites_idem]

/-- C10: the index builder touches only its own index pages — every path it
does not write keeps its previous content (conjunct 1), and the written paths
are exactly the root page plus one page per retained package (conjunct 2). -/
theorem claim_C10_frame :
    (∀ (sha256hex : Text → Text) (entries : List Entry) (fs : GenerateIndex.Fs) (p : Text),
      p ∉ (GenerateIndex.writesOf sha256hex entries).map Prod.fst →
      GenerateIndex.generate_index sha256hex entries fs p = fs p)
    ∧ (∀ (sha256hex : Text → Text) (entries : List Entry),
      (GenerateIndex.writesOf sha256hex entries).map Prod.fst
        = GenerateIndex.rootPath
          :: (GenerateIndex.sortGroups (GenerateIndex.groupsOf sha256hex entries)).map
              (fun g => GenerateIndex.pkgPath g.1)) := by
  constructor
  · intro sha256hex entries fs p hp
    rw [GenerateIndex.generate_index_eq_applyWrites]
    exact GenerateIndex.applyWrites_frame _ fs p hp
  · intro sha256hex entries
    unfold GenerateIndex.writesOf
    simp [List.map_map, Function.comp]

/-- Witness for C10: a stale page `simple/a/index.html` from an earlier run
survives, with its old content, a rebuild whose artifacts only cover
package `b`. -/
theorem claim_C10_frame_witness :
    GenerateIndex.generate_index (fun _ => []) [⟨str "b-1.0.tar.gz", true, []⟩]
        (fun p => if p = str "simple/a/index.html" then some (str "old") else none)
        (str "simple/a/index.html")
      = some (str "old") :=
  (claim_C10_frame.1 _ _ _ _ (by decide)).trans (by decide)

/-- C8: a missing artifact directory makes the index builder fail before any
write (the output tree is returned unchanged), and a missing requirements
file (or artifact directory) makes the verifier fail before any processing;
both surface as the propagated `FileNotFoundError`. -/
theorem claim_C8_input_not_found :
    (∀ (sha256hex : Text → Text) (fs : GenerateIndex.Fs),
      GenerateIndex.runGenerateIndex sha256hex none fs
        = (Except.error (str "FileNotFoundError"), fs))
    ∧ (∀ dirListing, VerifyMirror.runVerify none dirListing
        = Except.error (str "FileNotFoundError"))
    ∧ (∀ reqText, VerifyMirror.runVerify (some reqText) none
        = Except.error (str "FileNotFoundError")) :=
  ⟨fun _ _ => rfl, fun _ => rfl, fun _ => rfl⟩

namespace GenerateIndex

/-! ### The grouping dictionary -/

theorem lookupG_addEntry_self (g : Groups) (k : Text) (v : Text × Text) :
    lookupG (addEntry g k v) k = lookupG g k ++ [v] := by
  induction g with
  | nil => simp [addEntry, lookupG]
  | cons head rest ih =>
    obtain ⟨k', vs⟩ := head
    by_cases h : k' = k
    · simp [addEntry, lookupG, h]
    · simp [addEntry, lookupG, h, ih]

theorem lookupG_addEntry_other (g : Groups) (k key : Text) (v : Text × Text)
    (h : key ≠ k) : lookupG (addEntry g k v) key = lookupG g key := by
  induction g with
  | nil => simp [addEntry, lookupG, Ne.symm h]
  | cons head rest ih =>
    obtain ⟨k', vs⟩ := head
    by_cases h' : k' = k
    · subst h'
      simp [addEntry, lookupG, Ne.symm h]
    · simp [addEntry, lookupG, h', ih]

theorem mem_lookupG_addEntry (g : Groups) (k key : Text) (v w : Text × Text)
    (h : w ∈ lookupG g key) : w ∈ lookupG (addEntry g k v) key := by
  by_cases hk : key = k
  · subst hk
    rw [lookupG_addEntry_self]
    exact List.mem_append_left _ h
  · rwa [lookupG_addEntry_other _ _ _ _ hk]

theorem mem_lookupG_scanStep (sha256hex : Text → Text) (g : Groups) (e : Entry)
    (key : Text) (w : Text × Text) (h : w ∈ lookupG g key) :
    w ∈ lookupG (scanStep sha256hex g e) key := by
  unfold scanStep
  split
  · exact h
  · split
    · exact h
    · split
      · exact h
      · exact mem_lookupG_addEntry _ _ _ _ _ h

theorem mem_lookupG_scanFold (sha256hex : Text → Text) (key : Text) (w : Text × Text) :
    ∀ (l : List Entry) (g : Groups), w ∈ lookupG g key →
      w ∈ lookupG (l.foldl (scanStep sha256hex) g) key := by
  intro l
  induction l with
  | nil => exact fun g h => h
  | cons e l ih =>
    intro g h
    exact ih _ (mem_lookupG_scanStep _ _ _ _ _ h)

theorem scan_records (sha256hex : Text → Text) :
    ∀ (l : List Entry) (g : Groups) (e : Entry), e ∈ l → e.isFile = true →
      ∀ pkg, extract_package_name e.name = some pkg → pkg ≠ [] →
      (e.name, sha256_file sha256hex e.content) ∈ lookupG (l.foldl (scanStep sha256hex) g) pkg := by
  intro l
  induction l with
  | nil =>
    intro g e h
    simp at h
  | cons e' l ih =>
    intro g e hmem hf pkg hx hne
    rcases List.mem_cons.mp hmem with rfl | hmem'
    · rw [List.foldl_cons]
      apply mem_lookupG_scanFold
      simp only [scanStep, hf, Bool.not_true, Bool.false_eq_true, if_false, hx, if_neg hne,
        lookupG_addEntry_self]
      exact List.mem_append_right _ (List.mem_singleton_self _)
    · exact ih _ _ hmem' hf pkg hx hne

theorem lookupG_mem : ∀ (g : Groups) (key : Text), lookupG g key ≠ [] →
    (key, lookupG g key) ∈ g := by
  intro g
  induction g with
  | nil =>
    intro key h
    simp [lookupG] at h
  | cons head rest ih =>
    intro key h
    obtain ⟨k', vs⟩ := head
    by_cases hk : k' = key
    · subst hk
      rw [show lookupG ((k', vs) :: rest) k' = vs from by simp [lookupG]] at h ⊢
      exact List.mem_cons_self _ _
    · rw [show lookupG ((k', vs) :: rest) key = lookupG rest key from by simp [lookupG, hk]] at h ⊢
      exact List.mem_cons_of_mem _ (ih key h)

theorem mem_keys_addEntry (g : Groups) (k x : Text) (v : Text × Text) :
    x ∈ (addEntry g k v).map Prod.fst ↔ x ∈ g.map Prod.fst ∨ x = k := by
  induction g with
  | nil => simp [addEntry]
  | cons head rest ih =>
    obtain ⟨k', vs⟩ := head
    by_cases h : k' = k
    · subst h
      simp [addEntry]
      tauto
    · simp [addEntry, h, ih]
      tauto

theorem nodup_keys_addEntry (g : Groups) (k : Text) (v : Text × Text)
    (h : (g.map Prod.fst).Nodup) : ((addEntry g k v).map Prod.fst).Nodup := by
  induction g with
  | nil => simp [addEntry]
  | cons head rest ih =>
    obtain ⟨k', vs⟩ := head
    by_cases hk : k' = k
    · subst hk
      simpa [addEntry] using h
    · simp only [List.map_cons, List.nodup_cons] at h
      simp only [addEntry, if_neg hk, List.map_cons, List.nodup_cons]
      refine ⟨fun hm => ?_, ih h.2⟩
      rcases (mem_keys_addEntry rest k k' v).mp hm with hm' | hm'
      · exact h.1 hm'
      · exact hk hm'

theorem nodup_keys_scanStep (sha256hex : Text → Text) (g : Groups) (e : Entry)
    (h : (g.map Prod.fst).Nodup) : ((scanStep sha256hex g e).map Prod.fst).Nodup := by
  unfold scanStep
  split
  · exact h
  · split
    · exact h
    · split
      · exact h
      · exact nodup_keys_addEntry _ _ _ h

theorem nodup_keys_scanFold (sha256hex : Text → Text) :
    ∀ (l : List Entry) (g : Groups), (g.map Prod.fst).Nodup →
      ((l.foldl (scanStep sha256hex) g).map Prod.fst).Nodup := by
  intro l
  induction l with
  | nil => exact fun g h => h
  | cons e l ih =>
    intro g h
    exact ih _ (nodup_keys_scanStep _ _ _ h)

theorem nodup_keys_groupsOf (sha256hex : Text → Text) (entries : List Entry) :
    ((groupsOf sha256hex entries).map Prod.fst).Nodup :=
  nodup_keys_scanFold _ _ [] (by simp)

theorem nodup_keys_sortGroups (sha256hex : Text → Text) (entries : List Entry) :
    ((sortGroups (groupsOf sha256hex entries)).map Prod.fst).Nodup := by
  have hperm : ((sortGroups (groupsOf sha256hex entries)).map Prod.fst).Perm
      ((groupsOf sha256hex entries).map Prod.fst) :=
    (List.perm_insertionSort _ _).map Prod.fst
  exact hperm.nodup_iff.mpr (nodup_keys_groupsOf sha256hex entries)

end GenerateIndex

namespace GenerateIndex

/-! ### Ordering and page-lookup lemmas -/

theorem textLe_total : ∀ a b : Text, textLe a b = true ∨ textLe b a = true := by
  intro a
  induction a with
  | nil => intro b; left; rfl
  | cons x xs ih =>
    intro b
    cases b with
    | nil => right; rfl
    | cons y ys =>
      simp only [textLe, Bool.or_eq_true, decide_eq_true_eq, Bool.and_eq_true, beq_iff_eq]
      rcases Nat.lt_trichotomy x y with h | h | h
      · exact Or.inl (Or.inl h)
      · rcases ih ys with h' | h'
        · exact Or.inl (Or.inr ⟨h, h'⟩)
        · exact Or.inr (Or.inr ⟨h.symm, h'⟩)
      · exact Or.inr (Or.inl h)

theorem textLe_trans : ∀ {a b c : Text}, textLe a b = true → textLe b c = true →
    textLe a c = true := by
  intro a
  induction a with
  | nil => intro b c _ _; rfl
  | cons x xs ih =>
    intro b c hab hbc
    cases b with
    | nil => simp [textLe] at hab
    | cons y ys =>
      cases c with
      | nil => simp [textLe] at hbc
      | cons z zs =>
        simp only [textLe, Bool.or_eq_true, decide_eq_true_eq, Bool.and_eq_true,
          beq_iff_eq] at hab hbc ⊢
        rcases hab with hab | ⟨hab, hab'⟩ <;> rcases hbc with hbc | ⟨hbc, hbc'⟩
        · exact Or.inl (Nat.lt_trans hab hbc)
        · exact Or.inl (hbc ▸ hab)
        · exact Or.inl (hab ▸ hbc)
        · exact Or.inr ⟨hab.trans hbc, ih hab' hbc'⟩

theorem sortKeys_pairwise (keys : List Text) : (sortKeys keys).Pairwise leT := by
  haveI : IsTotal Text leT := ⟨textLe_total⟩
  haveI : IsTrans Text leT := ⟨fun _ _ _ hab hbc => textLe_trans hab hbc⟩
  exact List.sorted_insertionSort leT keys

theorem pkgPath_ne_rootPath (pkg : Text) : pkgPath pkg ≠ rootPath := by
  intro h
  have hlen := congrArg List.length h
  rw [pkgPath, rootPath] at hlen
  simp only [List.length_append] at hlen
  have h1 : (str "simple/").length = 7 := by decide
  have h2 : (str "/index.html").length = 11 := by decide
  have h3 : (str "simple/index.html").length = 17 := by decide
  omega

theorem pkgPath_injective {a b : Text} (h : pkgPath a = pkgPath b) : a = b := by
  unfold pkgPath at h
  exact List.append_cancel_left (List.append_cancel_right h)

theorem generate_index_rootPath (sha256hex : Text → Text) (entries : List Entry)
    (fs : Fs) :
    generate_index sha256hex entries fs rootPath
      = some (rootHtml (rootKeys sha256hex entries)) := by
  rw [generate_index_eq_applyWrites]
  have step : applyWrites (writesOf sha256hex entries) fs
      = applyWrites
          ((sortGroups (groupsOf sha256hex entries)).map
            (fun g => (pkgPath g.1, pkgHtml g.1 g.2)))
          (writeText fs rootPath (rootHtml (rootKeys sha256hex entries))) := rfl
  rw [step, applyWrites_frame]
  · rw [writeText, if_pos rfl]
  · simp only [List.map_map, List.mem_map, Function.comp]
    rintro ⟨g, _, hg⟩
    exact pkgPath_ne_rootPath g.1 hg

theorem applyWrites_middle (ws₁ ws₂ : List (Text × Text)) (p c : Text) (fs : Fs)
    (h : p ∉ ws₂.map Prod.fst) :
    applyWrites (ws₁ ++ (p, c) :: ws₂) fs p = some c := by
  have key : applyWrites (ws₁ ++ (p, c) :: ws₂) fs
      = applyWrites ws₂ (writeText (applyWrites ws₁ fs) p c) := by
    unfold applyWrites
    rw [List.foldl_append, List.foldl_cons]
  rw [key, applyWrites_frame _ _ _ h, writeText, if_pos rfl]

theorem generate_index_pkgPath (sha256hex : Text → Text) (entries : List Entry)
    (fs : Fs) (pkg : Text) (files : List (Text × Text))
    (hmem : (pkg, files) ∈ sortGroups (groupsOf sha256hex entries)) :
    generate_index sha256hex entries fs (pkgPath pkg) = some (pkgHtml pkg files) := by
  obtain ⟨l₁, l₂, hsplit⟩ := List.append_of_mem hmem
  have hnodup := nodup_keys_sortGroups sha256hex entries
  rw [hsplit, List.map_append, List.map_cons] at hnodup
  have hpkg₂ : pkg ∉ l₂.map Prod.fst := (List.nodup_cons.mp hnodup.of_append_right).1
  rw [generate_index_eq_applyWrites]
  have hws : writesOf sha256hex entries
      = (rootPath, rootHtml (rootKeys sha256hex entries))
        :: (l₁.map (fun g => (pkgPath g.1, pkgHtml g.1 g.2))
            ++ (pkgPath pkg, pkgHtml pkg files)
              :: l₂.map (fun g => (pkgPath g.1, pkgHtml g.1 g.2))) := by
    rw [writesOf, hsplit]
    simp [rootKeys]
  rw [hws]
  have step : ∀ g : Fs,
      applyWrites ((rootPath, rootHtml (rootKeys sha256hex entries))
          :: (l₁.map (fun g => (pkgPath g.1, pkgHtml g.1 g.2))
              ++ (pkgPath pkg, pkgHtml pkg files)
                :: l₂.map (fun g => (pkgPath g.1, pkgHtml g.1 g.2)))) g
        = applyWrites (l₁.map (fun g => (pkgPath g.1, pkgHtml g.1 g.2))
              ++ (pkgPath pkg, pkgHtml pkg files)
                :: l₂.map (fun g => (pkgPath g.1, pkgHtml g.1 g.2)))
            (writeText g rootPath (rootHtml (rootKeys sha256hex entries))) :=
    fun g => rfl
  rw [step]
  apply applyWrites_middle
  simp only [List.map_map, List.mem_map, Function.comp]
  rintro ⟨g, hg, hgp⟩
  exact hpkg₂ (List.mem_map.mpr ⟨g, hg, pkgPath_injective hgp⟩)

end GenerateIndex

namespace GenerateIndex

/-! ### Hashing chunks and recorded files -/

theorem foldl_append_eq (ls : List Text) :
    ∀ acc : Text, ls.foldl (fun fed chunk => fed ++ chunk) acc = acc ++ ls.flatten := by
  induction ls with
  | nil => intro acc; simp
  | cons l ls ih =>
    intro acc
    rw [List.foldl_cons, ih, List.flatten_cons, List.append_assoc]

theorem readChunksAux_flatten : ∀ (fuel : Nat) (bs : Text), bs.length ≤ fuel →
    (readChunksAux fuel bs).flatten = bs := by
  intro fuel
  induction fuel with
  | zero =>
    intro bs h
    have hbs : bs = [] := List.length_eq_zero.mp (Nat.le_zero.mp h)
    subst hbs
    rfl
  | succ n ih =>
    intro bs h
    cases bs with
    | nil => rfl
    | cons c cs =>
      have hlen : ((c :: cs).drop 8192).length ≤ n := by
        rw [List.length_drop]
        simp only [List.length_cons] at h ⊢
        omega
      rw [readChunksAux, List.flatten_cons, ih _ hlen]
      exact List.take_append_drop _ _

theorem readChunks_foldl (bs : Text) :
    (readChunks bs).foldl (fun fed chunk => fed ++ chunk) [] = bs := by
  rw [foldl_append_eq, List.nil_append]
  exact readChunksAux_flatten _ _ le_rfl

theorem sha256_file_eq (sha256hex : Text → Text) (bs : Text) :
    sha256_file sha256hex bs = sha256hex bs := by
  rw [sha256_file, readChunks_foldl]

end GenerateIndex

/-- C4: splitting a byte stream into the 8192-byte chunks successively fed to
the hash object concatenates back to the whole stream, so the streamed digest
equals the one-shot digest of the complete content, for every digest function
(conjuncts 1 and 2); the per-package page link for every retained artifact is
`    <a href="../../packages/{filename}#sha256={sha}">{filename}</a>`
(conjunct 3), and the sha recorded there is the digest of that artifact's
complete byte content (conjunct 4). -/
theorem claim_C4_hash_links :
    (∀ bs : Text, (GenerateIndex.readChunks bs).foldl (fun fed chunk => fed ++ chunk) [] = bs)
    ∧ (∀ (sha256hex : Text → Text) (bs : Text),
        GenerateIndex.sha256_file sha256hex bs = sha256hex bs)
    ∧ (∀ filename sha : Text, GenerateIndex.fileLink filename sha
        = str "    <a href=\"../../packages/" ++ filename ++ str "#sha256=" ++ sha
          ++ str "\">" ++ filename ++ str "</a>")
    ∧ (∀ (sha256hex : Text → Text) (entries : List Entry) (fs : GenerateIndex.Fs) (e : Entry),
        e ∈ entries → e.isFile = true →
        ∀ pkg, GenerateIndex.extract_package_name e.name = some pkg → pkg ≠ [] →
        GenerateIndex.generate_index sha256hex entries fs (GenerateIndex.pkgPath pkg)
            = some (GenerateIndex.pkgHtml pkg (GenerateIndex.filesOf sha256hex entries pkg))
          ∧ (e.name, sha256hex e.content) ∈ GenerateIndex.filesOf sha256hex entries pkg) := by
  refine ⟨GenerateIndex.readChunks_foldl, GenerateIndex.sha256_file_eq, fun _ _ => rfl,
    fun sha256hex entries fs e hmem hf pkg hx hne => ?_⟩
  have hrec : (e.name, GenerateIndex.sha256_file sha256hex e.content)
      ∈ GenerateIndex.filesOf sha256hex entries pkg := by
    unfold GenerateIndex.filesOf GenerateIndex.groupsOf
    exact GenerateIndex.scan_records sha256hex _ [] e
      ((List.Perm.mem_iff (List.perm_insertionSort _ entries)).mpr hmem) hf pkg hx hne
  rw [GenerateIndex.sha256_file_eq] at hrec
  have hne' : GenerateIndex.filesOf sha256hex entries pkg ≠ [] := by
    intro h
    rw [h] at hrec
    simp at hrec
  have hmemg : (pkg, GenerateIndex.filesOf sha256hex entries pkg)
      ∈ GenerateIndex.groupsOf sha256hex entries :=
    GenerateIndex.lookupG_mem _ _ hne'
  have hmems : (pkg, GenerateIndex.filesOf sha256hex entries pkg)
      ∈ GenerateIndex.sortGroups (GenerateIndex.groupsOf sha256hex entries) :=
    (List.Perm.mem_iff (List.perm_insertionSort _ _)).mpr hmemg
  exact ⟨GenerateIndex.generate_index_pkgPath _ _ _ _ _ hmems, hrec⟩

/-- Witness for C4: one sdist artifact with byte content `[7]`; its package
page records its filename with the digest of that content. -/
theorem claim_C4_hash_links_witness :
    GenerateIndex.generate_index (fun bs => bs) [⟨str "foo-1.0.tar.gz", true, [7]⟩]
        (fun _ => none) (GenerateIndex.pkgPath (str "foo"))
      = some (GenerateIndex.pkgHtml (str "foo")
          (GenerateIndex.filesOf (fun bs => bs) [⟨str "foo-1.0.tar.gz", true, [7]⟩] (str "foo")))
    ∧ (str "foo-1.0.tar.gz", [7])
        ∈ GenerateIndex.filesOf (fun bs => bs) [⟨str "foo-1.0.tar.gz", true, [7]⟩] (str "foo") :=
  claim_C4_hash_links.2.2.2 (fun bs => bs) [⟨str "foo-1.0.tar.gz", true, [7]⟩]
    (fun _ => none) ⟨str "foo-1.0.tar.gz", true, [7]⟩ (by decide) rfl (str "foo")
    (by decide) (by decide)

namespace GenerateIndex

/-! ### The keys of the root page -/

theorem mem_keys_scanStep (sha256hex : Text → Text) (g : Groups) (e : Entry) (n : Text) :
    n ∈ (scanStep sha256hex g e).map Prod.fst ↔
      n ∈ g.map Prod.fst
        ∨ (e.isFile = true ∧ extract_package_name e.name = some n ∧ n ≠ []) := by
  cases hf : e.isFile with
  | false => simp [scanStep, hf]
  | true =>
    cases hx : extract_package_name e.name with
    | none => simp [scanStep, hf, hx]
    | some pkg =>
      by_cases hp : pkg = []
      · subst hp
        simp only [scanStep, hf, Bool.not_true, Bool.false_eq_true, if_false, hx, if_pos rfl,
          Option.some.injEq, true_and]
        constructor
        · exact Or.inl
        · rintro (h | ⟨rfl, h2⟩)
          · exact h
          · exact absurd rfl h2
      · simp only [scanStep, hf, Bool.not_true, Bool.false_eq_true, if_false, hx, if_neg hp,
          mem_keys_addEntry, Option.some.injEq, true_and]
        constructor
        · rintro (h | rfl)
          · exact Or.inl h
          · exact Or.inr ⟨rfl, hp⟩
        · rintro (h | ⟨rfl, _⟩)
          · exact Or.inl h
          · exact Or.inr rfl

theorem mem_keys_scanFold (sha256hex : Text → Text) :
    ∀ (l : List Entry) (g : Groups) (n : Text),
      n ∈ (l.foldl (scanStep sha256hex) g).map Prod.fst ↔
        n ∈ g.map Prod.fst
          ∨ ∃ e ∈ l, e.isFile = true ∧ extract_package_name e.name = some n ∧ n ≠ [] := by
  intro l
  induction l with
  | nil =>
    intro g n
    simp
  | cons e l ih =>
    intro g n
    rw [List.foldl_cons, ih, mem_keys_scanStep]
    constructor
    · rintro ((h | h) | ⟨e', he', h⟩)
      · exact Or.inl h
      · exact Or.inr ⟨e, List.mem_cons_self _ _, h⟩
      · exact Or.inr ⟨e', List.mem_cons_of_mem _ he', h⟩
    · rintro (h | ⟨e', he', h⟩)
      · exact Or.inl (Or.inl h)
      · rcases List.mem_cons.mp he' with rfl | he''
        · exact Or.inl (Or.inr h)
        · exact Or.inr ⟨e', he'', h⟩

theorem mem_rootKeys (sha256hex : Text → Text) (entries : List Entry) (n : Text) :
    n ∈ rootKeys sha256hex entries ↔
      n ≠ [] ∧ ∃ e ∈ entries, e.isFile = true ∧ extract_package_name e.name = some n := by
  unfold rootKeys sortKeys
  rw [List.Perm.mem_iff (List.perm_insertionSort _ _)]
  unfold groupsOf
  rw [mem_keys_scanFold]
  constructor
  · rintro (h | ⟨e, he, h1, h2, h3⟩)
    · simp at h
    · exact ⟨h3, e, (List.Perm.mem_iff (List.perm_insertionSort _ _)).mp he, h1, h2⟩
  · rintro ⟨h3, e, he, h1, h2⟩
    exact Or.inr ⟨e, (List.Perm.mem_iff (List.perm_insertionSort _ _)).mpr he, h1, h2, h3⟩

theorem nodup_rootKeys (sha256hex : Text → Text) (entries : List Entry) :
    (rootKeys sha256hex entries).Nodup :=
  ((List.perm_insertionSort _ _).nodup_iff).mpr (nodup_keys_groupsOf sha256hex entries)

end GenerateIndex

/-- C7 counterexample: the artifact `-0-py3-none-any.whl` classifies to the
empty normalized name, so the empty name is a distinct PackageName among the
classified artifacts, yet the emitted root page is the one for an empty key
list — it contains no link for it. -/
theorem claim_C7_counterexample :
    classifiedNames [⟨str "-0-py3-none-any.whl", true, []⟩] = [[]]
    ∧ GenerateIndex.generate_index (fun _ => []) [⟨str "-0-py3-none-any.whl", true, []⟩]
        (fun _ => none) GenerateIndex.rootPath = some (GenerateIndex.rootHtml [])
    ∧ GenerateIndex.rootHtml [] ≠ GenerateIndex.rootHtml [[]] :=
  ⟨by decide, by decide, by decide⟩

/-- C7 (amended): the root page lists exactly one link per distinct
*nonempty* normalized package name among the classified artifacts (an
artifact classified to the empty name gets no link), ordered lexicographically
by normalized name, each link targeting the `<name>/` subdirectory. -/
theorem claim_C7_rootLinks :
    (∀ (sha256hex : Text → Text) (entries : List Entry) (fs : GenerateIndex.Fs),
      GenerateIndex.generate_index sha256hex entries fs GenerateIndex.rootPath
        = some (GenerateIndex.rootHtml (GenerateIndex.rootKeys sha256hex entries)))
    ∧ (∀ (sha256hex : Text → Text) (entries : List Entry),
        (GenerateIndex.rootKeys sha256hex entries).Nodup
        ∧ (GenerateIndex.rootKeys sha256hex entries).Pairwise GenerateIndex.leT
        ∧ ∀ n, n ∈ GenerateIndex.rootKeys sha256hex entries ↔
            n ≠ [] ∧ ∃ e ∈ entries, e.isFile = true
              ∧ GenerateIndex.extract_package_name e.name = some n)
    ∧ (∀ ks, GenerateIndex.rootHtml ks
        = str "<!DOCTYPE html>\n<html><head><title>Simple Index</title><meta name=\"api-version\" value=\"2\"/></head>\n<body>\n"
          ++ GenerateIndex.joinNl
              (ks.map (fun n => str "    <a href=\"" ++ n ++ str "/\">" ++ n ++ str "</a>"))
          ++ str "\n</body></html>") :=
  ⟨GenerateIndex.generate_index_rootPath,
   fun sha256hex entries =>
    ⟨GenerateIndex.nodup_rootKeys sha256hex entries,
     GenerateIndex.sortKeys_pairwise _,
     GenerateIndex.mem_rootKeys sha256hex entries⟩,
   fun _ => rfl⟩

namespace VerifyMirror

/-! ### Properties of `verify` -/

theorem map_lower_normalize (x : Text) :
    (normalize x).map lowerChar = normalize x := by
  have hl : lowerChar = GenerateIndex.lowerChar := rfl
  rw [hl, ← GenerateIndex.normalize_eq]
  exact GenerateIndex.map_lowerChar_idem _

theorem lineName_normalized (line n : Text) (h : lineName line = some n) :
    n.map lowerChar = n := by
  simp only [lineName] at h
  split at h
  · exact absurd h (by simp)
  · split at h
    · exact absurd h (by simp)
    · split at h
      · exact absurd h (by simp)
      · split at h
        · exact absurd h (by simp)
        · rw [← Option.some.inj h]
          exact map_lower_normalize _

theorem verifyFold_missing (available : List Text) :
    ∀ (lines : List Text) (checked : Nat) (missing : List Text),
      (lines.foldl (verifyStep available) (checked, missing)).2
        = missing ++ lines.filterMap (fun line =>
            match lineName line with
            | none => none
            | some pkg => if satisfies available pkg then none else some (strip line)) := by
  intro lines
  induction lines with
  | nil =>
    intro checked missing
    simp
  | cons line lines ih =>
    intro checked missing
    rw [List.foldl_cons, List.filterMap_cons]
    cases hx : lineName line with
    | none =>
      rw [show verifyStep available (checked, missing) line = (checked, missing) from by
        simp [verifyStep, hx]]
      exact ih checked missing
    | some pkg =>
      by_cases hs : satisfies available pkg = true
      · rw [show verifyStep available (checked, missing) line = (checked + 1, missing) from by
          simp [verifyStep, hx, hs]]
        simp only [hs, if_true]
        exact ih (checked + 1) missing
      · rw [show verifyStep available (checked, missing) line
            = (checked + 1, missing ++ [strip line]) from by simp [verifyStep, hx, hs]]
        simp only [hs, Bool.false_eq_true, if_false]
        rw [ih (checked + 1) (missing ++ [strip line]), List.append_assoc]
        rfl

theorem verifyFold_checked (available : List Text) :
    ∀ (lines : List Text) (checked : Nat) (missing : List Text),
      (lines.foldl (verifyStep available) (checked, missing)).1
        = checked + (lines.filter (fun line => (lineName line).isSome)).length := by
  intro lines
  induction lines with
  | nil =>
    intro checked missing
    simp
  | cons line lines ih =>
    intro checked missing
    rw [List.foldl_cons]
    cases hx : lineName line with
    | none =>
      rw [show verifyStep available (checked, missing) line = (checked, missing) from by
        simp [verifyStep, hx]]
      rw [ih checked missing,
        show (line :: lines).filter (fun l => (lineName l).isSome)
            = lines.filter (fun l => (lineName l).isSome) from by
          simp [List.filter_cons, hx]]
    | some pkg =>
      have hfil : (line :: lines).filter (fun l => (lineName l).isSome)
          = line :: lines.filter (fun l => (lineName l).isSome) := by
        simp [List.filter_cons, hx]
      by_cases hs : satisfies available pkg = true
      · rw [show verifyStep available (checked, missing) line = (checked + 1, missing) from by
          simp [verifyStep, hx, hs]]
        rw [ih (checked + 1) missing, hfil, List.length_cons]
        omega
      · rw [show verifyStep available (checked, missing) line
            = (checked + 1, missing ++ [strip line]) from by simp [verifyStep, hx, hs]]
        rw [ih (checked + 1) (missing ++ [strip line]), hfil, List.length_cons]
        omega

end VerifyMirror

/-- C2: a checked requirement with extracted normalized name `n` is satisfied
exactly when some regular file in the artifact directory, compared after
lowercasing, starts with `n` + `-`, or with `n`'s underscore variant + `-`,
or with `n`'s dot variant + `-` (conjunct 1); an extracted name is itself
already lowercase, making the comparison case-insensitive (conjunct 2);
requirement `PKG-Name==1.0.0` is satisfied by a directory holding
`pkg_name-1.0.0-py3-none-any.whl` (conjunct 3) and `foo==1.0` is not
satisfied by a directory holding only `foobar-1.0.tar.gz` (conjunct 4). -/
theorem claim_C2_verify_satisfaction :
    (∀ (entries : List Entry) (line n : Text), VerifyMirror.lineName line = some n →
      (VerifyMirror.satisfies (VerifyMirror.availableOf entries) n = true ↔
        ∃ e ∈ entries, e.isFile = true ∧
          ((n ++ [45]).isPrefixOf (e.name.map VerifyMirror.lowerChar) = true
            ∨ (VerifyMirror.underscoreVariant n ++ [45]).isPrefixOf
                (e.name.map VerifyMirror.lowerChar) = true
            ∨ (VerifyMirror.dotVariant n ++ [45]).isPrefixOf
                (e.name.map VerifyMirror.lowerChar) = true)))
    ∧ (∀ line n : Text, VerifyMirror.lineName line = some n →
        n.map VerifyMirror.lowerChar = n)
    ∧ (VerifyMirror.verify (str "PKG-Name==1.0.0")
        [⟨str "pkg_name-1.0.0-py3-none-any.whl", true, []⟩]).missing = []
    ∧ (VerifyMirror.verify (str "foo==1.0")
        [⟨str "foobar-1.0.tar.gz", true, []⟩]).missing = [str "foo==1.0"] := by
  refine ⟨fun entries line n _ => ?_, VerifyMirror.lineName_normalized, by decide, by decide⟩
  unfold VerifyMirror.satisfies VerifyMirror.availableOf
  rw [List.any_eq_true]
  constructor
  · rintro ⟨f, hf, hp⟩
    rw [List.mem_map] at hf
    obtain ⟨e, he, rfl⟩ := hf
    rw [List.mem_filter] at he
    refine ⟨e, he.1, he.2, ?_⟩
    simpa [or_assoc] using hp
  · rintro ⟨e, he, hfile, hp⟩
    refine ⟨e.name.map VerifyMirror.lowerChar,
      List.mem_map.mpr ⟨e, List.mem_filter.mpr ⟨he, hfile⟩, rfl⟩, ?_⟩
    simpa [or_assoc] using hp

/-- Witness for C2: the requirement line `foo==1.0` extracts the normalized
name `foo`, which is already lowercase. -/
theorem claim_C2_verify_satisfaction_witness :
    (str "foo").map VerifyMirror.lowerChar = str "foo" :=
  claim_C2_verify_satisfaction.2.1 (str "foo==1.0") (str "foo") (by decide)

/-- C6: `verify`'s missing report is exactly the checked-and-unsatisfied
(stripped) requirement lines, in input order (conjunct 1); its checked count
is the number of checked lines (conjunct 2); the run succeeds — no
`sys.exit(1)` — precisely when nothing is missing (conjunct 3); and with both
inputs present the run returns this result normally, never an exception
(conjunct 4). -/
theorem claim_C6_verify_outcome :
    ∀ (reqText : Text) (entries : List Entry),
      (VerifyMirror.verify reqText entries).missing
          = (VerifyMirror.splitLines (VerifyMirror.strip reqText)).filterMap
              (fun line =>
                match VerifyMirror.lineName line with
                | none => none
                | some pkg =>
                  if VerifyMirror.satisfies (VerifyMirror.availableOf entries) pkg then none
                  else some (VerifyMirror.strip line))
        ∧ (VerifyMirror.verify reqText entries).checked
            = ((VerifyMirror.splitLines (VerifyMirror.strip reqText)).filter
                (fun line => (VerifyMirror.lineName line).isSome)).length
        ∧ (VerifyMirror.exitSuccess (VerifyMirror.verify reqText entries) = true
            ↔ (VerifyMirror.verify reqText entries).missing = [])
        ∧ VerifyMirror.runVerify (some reqText) (some entries)
            = Except.ok (VerifyMirror.verify reqText entries) := by
  intro reqText entries
  refine ⟨?_, ?_, ?_, rfl⟩
  · have h := VerifyMirror.verifyFold_missing (VerifyMirror.availableOf entries)
      (VerifyMirror.splitLines (VerifyMirror.strip reqText)) 0 []
    simpa [VerifyMirror.verify] using h
  · have h := VerifyMirror.verifyFold_checked (VerifyMirror.availableOf entries)
      (VerifyMirror.splitLines (VerifyMirror.strip reqText)) 0 []
    simpa [VerifyMirror.verify] using h
  · unfold VerifyMirror.exitSuccess
    exact List.isEmpty_iff
